import Mathlib

/-!
Verification development for the effect-driven state runtime and the
breed-classification engine of the repository (src/src/core.ts).

The TypeScript source is shallowly embedded: JavaScript strings become
Lean strings, the classifier probability (a JS number constrained to
[0,1]) becomes a rational, the frctl Dict and Set containers are
modelled as association lists and lists observed through lookup and
membership, and the stateful Program runtime becomes a pure step
function that returns the ordered trace of observable events (effect
executions and subscriber notifications).
-/

namespace DogApp

/-! ## String utilities: models of the JS string operations used in core.ts -/

/-- Model of the character class matched by the regex escape backslash-s used
in the source (toLowerCase labels are ASCII in practice; the common JS
whitespace characters are covered). -/
def isJsWhitespace (c : Char) : Bool :=
  c == ' ' || c == '\t' || c == '\n' || c == '\r' ||
  c == '\x0b' || c == '\x0c' || c == ' '

/-- Split a character list at every character satisfying the predicate.
Each matching character is a delimiter (it is consumed); empty fragments are
kept, exactly as JS String.prototype.split with a single-character regex. -/
def splitOnPred (p : Char → Bool) : List Char → List (List Char)
  | [] => [[]]
  | c :: rest =>
    if p c then
      [] :: splitOnPred p rest
    else
      match splitOnPred p rest with
      | [] => [[c]]
      | t :: ts => (c :: t) :: ts

/-- Model of JS s.toLowerCase() on the ASCII fragment: lower-case every
character. -/
def jsToLower (s : String) : String :=
  (s.toList.map Char.toLower).asString

/-- Model of s.split(regex comma followed by any whitespace): split at commas,
then strip the leading whitespace run of every fragment that follows a comma
(the greedy whitespace part of the separator). -/
def splitCommaWs (s : String) : List String :=
  match splitOnPred (· == ',') s.toList with
  | [] => []
  | f :: fs => (f :: fs.map (List.dropWhile isJsWhitespace)).map List.asString

/-- Model of s.split(regex whitespace-or-hyphen): every whitespace or hyphen
character is a one-character delimiter. -/
def splitWsDash (s : String) : List String :=
  (splitOnPred (fun c => isJsWhitespace c || c == '-') s.toList).map List.asString

/-! ## Containers: models of frctl Dict and Set as observed by the source -/

/-- Model of frctl Dict.get: the value stored at the key, if any. The Dict is
modelled as an association list with distinct keys. -/
def dictGet (key : String) (entries : List (String × α)) : Option α :=
  match entries with
  | [] => none
  | e :: es => if e.1 = key then some e.2 else dictGet key es

/-- Insert a binding, replacing an existing binding of the same key, as frctl
Dict.insert does. -/
def dictInsert (key : String) (value : α) : List (String × α) → List (String × α)
  | [] => [(key, value)]
  | e :: es => if e.1 = key then (key, value) :: es else e :: dictInsert key value es

/-- Model of frctl Dict.fromList: fold the pairs into an empty Dict, a later
pair overriding an earlier one with the same key. -/
def dictFromList (pairs : List (String × α)) : List (String × α) :=
  pairs.foldl (fun d kv => dictInsert kv.1 kv.2 d) []

/-- Model of frctl Set.fromList: the Set is observed by the source only
through member, so the element list itself is the model and member is
List.contains. -/
def setFromList (l : List String) : List String := l

/-! ## The classifier data model (core.ts lines 109-118, 141-142) -/

/-- Embedding of the Classification interface: a label produced by the vision
classifier together with its probability. The JS number is modelled as a
rational. -/
structure Classification where
  className : String
  probability : ℚ
deriving DecidableEq

/-- Embedding of the Probe interface: the resolved match. The source field
named match is spelled match_ because match is a Lean keyword. -/
structure Probe where
  match_ : ℚ
  breed : String
  subBreed : Option String
deriving DecidableEq

/-- Embedding of the Aviary class state: the breeds Dict mapping a breed name
to its Set of sub-breed names. -/
structure Aviary where
  breeds : List (String × List String)
deriving DecidableEq

/-! ## The stable descending sort (core.ts line 180)

JS Array.prototype.sort is required to be stable; the comparator
(left, right) => right.probability - left.probability orders by descending
probability. Insertion keeps an earlier element in front of every later
element of equal probability. -/

/-- Insert one classification into a descending-sorted list, in front of the
first element whose probability does not exceed it. -/
def insertDesc (c : Classification) : List Classification → List Classification
  | [] => [c]
  | d :: ds =>
    if d.probability ≤ c.probability then c :: d :: ds
    else d :: insertDesc c ds

/-- Stable sort by descending probability, the behaviour of
slice().sort((l, r) => r.probability - l.probability) in the source. -/
def sortDesc : List Classification → List Classification
  | [] => []
  | c :: cs => insertDesc c (sortDesc cs)

/-! ## The classifier (core.ts lines 177-221) -/

/-- Embedding of Aviary.classifyFragment: split the fragment into tokens at
whitespace or hyphen, resolve the breed as the first token that is a key of
the breeds Dict (a fold with Maybe.orElse), then scan all tokens of the same
fragment for the first one contained in the sub-breed Set of that breed. -/
def Aviary.classifyFragment (av : Aviary) (match_ : ℚ) (fragment : String) : Option Probe :=
  ((splitWsDash fragment).foldl
      (fun result breed =>
        result.orElse fun _ =>
          (dictGet breed av.breeds).map fun subBreeds => (breed, subBreeds))
      none).map
    fun bs =>
      { match_ := match_
        breed := bs.1
        subBreed :=
          (splitWsDash fragment).foldl
            (fun result subBreed =>
              result.orElse fun _ =>
                if bs.2.contains subBreed then some subBreed else none)
            none }

/-- Embedding of Aviary.classifySingle: lower-case the label, split it into
comma-separated alternate fragments, and resolve the first fragment that
yields a Probe (a fold with Maybe.orElse). -/
def Aviary.classifySingle (av : Aviary) (match_ : ℚ) (className : String) : Option Probe :=
  ((splitCommaWs (jsToLower className)).foldl
      (fun result fragment =>
        result.orElse fun _ => av.classifyFragment match_ fragment)
      none)

/-- Embedding of Aviary.classify: stably sort the classifications by
descending probability and resolve the first one whose label yields a Probe
(a fold with Maybe.orElse). -/
def Aviary.classify (av : Aviary) (classifications : List Classification) : Option Probe :=
  (sortDesc classifications).foldl
    (fun result c => result.orElse fun _ => av.classifySingle c.probability c.className)
    none

/-! ## The reference classification algorithm, written from the words of the
specification (section 4.5), to be compared with the source embedding -/

/-- Reference resolution of one fragment, following the spec: split the
fragment on whitespace or hyphen into tokens, fix the breed at the first
token that is a key of the index, then scan all tokens of that same fragment
in order for the first one that is a known sub-breed of that breed. -/
def specResolveFragment (av : Aviary) (confidence : ℚ) (fragment : String) : Option Probe :=
  match (splitWsDash fragment).find? fun t => (dictGet t av.breeds).isSome with
  | none => none
  | some b =>
    match dictGet b av.breeds with
    | none => none
    | some subBreeds =>
      some { match_ := confidence
             breed := b
             subBreed := (splitWsDash fragment).find? fun t => subBreeds.contains t }

/-- Reference resolution of one label, following the spec: lower-case it,
split it on commas into alternate fragments, and try each fragment in order,
returning the first resolvable Probe. -/
def specResolveLabel (av : Aviary) (confidence : ℚ) (label : String) : Option Probe :=
  (splitCommaWs (jsToLower label)).findSome? (specResolveFragment av confidence)

/-- Reference classification, following the spec: stably sort descending by
probability, walk the sorted list highest-confidence first, and return the
first entry whose label resolves to a Probe. -/
def specClassify (av : Aviary) (classifications : List Classification) : Option Probe :=
  (sortDesc classifications).findSome? fun c =>
    specResolveLabel av c.probability c.className

/-! ## Helper lemmas -/

/-- A fold with Maybe.orElse computes the first Just, i.e. findSome?. -/
theorem foldl_orElse (f : α → Option β) (l : List α) (acc : Option β) :
    l.foldl (fun r x => r.orElse fun _ => f x) acc = acc.orElse fun _ => l.findSome? f := by
  induction l generalizing acc with
  | nil => cases acc <;> rfl
  | cons x xs ih =>
    rw [List.foldl_cons, ih]
    cases acc with
    | some a => rfl
    | none =>
      show (f x).orElse _ = _
      rw [List.findSome?_cons]
      cases f x with
      | some b => rfl
      | none => rfl

/-- A fold with Maybe.orElse over a guard computes find?. -/
theorem findSome?_guard (p : α → Bool) (l : List α) :
    (l.findSome? fun x => if p x then some x else none) = l.find? p := by
  induction l with
  | nil => rfl
  | cons x xs ih =>
    rw [List.findSome?_cons, List.find?_cons]
    by_cases h : p x <;> simp [h, ih]

/-- Searching for the first token with a successful Dict lookup and then
looking it up again is the same as finding the first successful lookup. -/
theorem findSome?_dictGet (d : List (String × α)) (l : List String)
    (f : String → α → β) :
    (l.findSome? fun n => (dictGet n d).map fun s => f n s) =
      match l.find? fun n => (dictGet n d).isSome with
      | none => none
      | some b => (dictGet b d).map fun s => f b s := by
  induction l with
  | nil => rfl
  | cons x xs ih =>
    rw [List.findSome?_cons, List.find?_cons]
    cases h : dictGet x d with
    | some s => simp [h]
    | none => simp [h, ih]

/-- The source fragment resolver equals the reference fragment resolver. -/
theorem classifyFragment_eq_spec (av : Aviary) (m : ℚ) (frag : String) :
    av.classifyFragment m frag = specResolveFragment av m frag := by
  unfold Aviary.classifyFragment specResolveFragment
  rw [foldl_orElse]
  show ((splitWsDash frag).findSome? _).map _ = _
  rw [findSome?_dictGet av.breeds (splitWsDash frag) (fun n s => (n, s))]
  cases hfind : (splitWsDash frag).find? fun n => (dictGet n av.breeds).isSome with
  | none => rfl
  | some b =>
    dsimp only
    cases hget : dictGet b av.breeds with
    | none => rfl
    | some subBreeds =>
      have hsubfold :
          ((splitWsDash frag).foldl
            (fun result subBreed =>
              result.orElse fun _ =>
                if subBreeds.contains subBreed then some subBreed else none)
            none) =
            (splitWsDash frag).find? fun t => subBreeds.contains t := by
        rw [foldl_orElse]
        show ((splitWsDash frag).findSome? _) = _
        exact findSome?_guard _ _
      show _ = some (Probe.mk m b ((splitWsDash frag).find? fun t => subBreeds.contains t))
      rw [← hsubfold]
      rfl

/-- The source label resolver equals the reference label resolver. -/
theorem classifySingle_eq_spec (av : Aviary) (m : ℚ) (label : String) :
    av.classifySingle m label = specResolveLabel av m label := by
  unfold Aviary.classifySingle specResolveLabel
  rw [foldl_orElse]
  show List.findSome? _ _ = _
  congr 1
  funext fragment
  exact classifyFragment_eq_spec av m fragment

/-- The source classifier equals the reference classifier. -/
theorem classify_eq_spec (av : Aviary) (cs : List Classification) :
    av.classify cs = specClassify av cs := by
  unfold Aviary.classify specClassify
  rw [foldl_orElse]
  show List.findSome? _ _ = _
  congr 1
  funext c
  exact classifySingle_eq_spec av c.probability c.className

/-- Inserting into the descending sort is a permutation step. -/
theorem insertDesc_perm (c : Classification) (l : List Classification) :
    (insertDesc c l).Perm (c :: l) := by
  induction l with
  | nil => exact List.Perm.refl _
  | cons d ds ih =>
    unfold insertDesc
    by_cases h : d.probability ≤ c.probability
    · rw [if_pos h]
    · rw [if_neg h]
      exact (ih.cons d).trans (List.Perm.swap c d ds)

/-- The descending sort permutes its input. -/
theorem sortDesc_perm (cs : List Classification) : (sortDesc cs).Perm cs := by
  induction cs with
  | nil => exact List.Perm.refl _
  | cons c cs ih => exact (insertDesc_perm c (sortDesc cs)).trans (ih.cons c)

/-- Inserting into a descending-ordered list keeps it descending-ordered. -/
theorem insertDesc_pairwise (c : Classification) (l : List Classification)
    (h : l.Pairwise fun a b => b.probability ≤ a.probability) :
    (insertDesc c l).Pairwise fun a b => b.probability ≤ a.probability := by
  induction l with
  | nil => simp [insertDesc]
  | cons d ds ih =>
    rw [List.pairwise_cons] at h
    unfold insertDesc
    by_cases hle : d.probability ≤ c.probability
    · rw [if_pos hle]
      refine List.Pairwise.cons ?_ (List.pairwise_cons.mpr h)
      intro y hy
      rcases List.mem_cons.mp hy with rfl | hy2
      · exact hle
      · exact le_trans (h.1 y hy2) hle
    · rw [if_neg hle]
      refine List.Pairwise.cons ?_ (ih h.2)
      intro y hy
      have hy2 : y ∈ c :: ds := (insertDesc_perm c ds).mem_iff.mp hy
      rcases List.mem_cons.mp hy2 with rfl | hy3
      · exact le_of_not_le hle
      · exact h.1 y hy3

/-- The descending sort orders probabilities in non-increasing order. -/
theorem sortDesc_pairwise (cs : List Classification) :
    (sortDesc cs).Pairwise fun a b => b.probability ≤ a.probability := by
  induction cs with
  | nil => exact List.Pairwise.nil
  | cons c cs ih => exact insertDesc_pairwise c (sortDesc cs) ih

/-- Insertion places an element in front of every equal-probability element
already present, so the filtered equal-probability subsequence is preserved
with the new element first. -/
theorem insertDesc_filter (c : Classification) (l : List Classification) (p : ℚ) :
    (insertDesc c l).filter (fun x => decide (x.probability = p)) =
      if decide (c.probability = p) then
        c :: l.filter fun x => decide (x.probability = p)
      else l.filter fun x => decide (x.probability = p) := by
  induction l with
  | nil =>
    unfold insertDesc
    rw [List.filter_cons]
  | cons d ds ih =>
    unfold insertDesc
    by_cases hle : d.probability ≤ c.probability
    · rw [if_pos hle, List.filter_cons]
    · rw [if_neg hle, List.filter_cons, ih, List.filter_cons]
      by_cases hc : c.probability = p
      · have hd : ¬ d.probability = p := by
          intro hdp
          exact hle (le_of_eq (hdp.trans hc.symm))
        simp [hc, hd]
      · by_cases hd : d.probability = p <;> simp [hc, hd]

/-- Stability of the descending sort: classifications of any fixed
probability keep their original relative order. -/
theorem sortDesc_filter (cs : List Classification) (p : ℚ) :
    (sortDesc cs).filter (fun x => decide (x.probability = p)) =
      cs.filter fun x => decide (x.probability = p) := by
  induction cs with
  | nil => rfl
  | cons c cs ih =>
    show (insertDesc c (sortDesc cs)).filter _ = _
    rw [insertDesc_filter, ih, List.filter_cons]

/-- If every element maps to none, findSome? is none. -/
theorem findSome?_eq_none_of_all (f : α → Option β) (l : List α)
    (h : ∀ x ∈ l, f x = none) : l.findSome? f = none := by
  induction l with
  | nil => rfl
  | cons x xs ih =>
    rw [List.findSome?_cons, h x (List.mem_cons_self x xs)]
    exact ih fun y hy => h y (List.mem_cons_of_mem x hy)

/-! ## Claim theorems for the classifier -/

/-- Claim C2: for every BreedIndex and list of classifications, classify
equals the reference algorithm of the spec: a stable descending sort by
probability (proved by the permutation, ordering and filter-stability
conjuncts) followed by a highest-confidence-first walk returning the first
label that resolves, where resolution lower-cases the label, tries
comma-separated fragments in order, fixes the breed at the first token that
is an index key and scans all tokens of that fragment for the first known
sub-breed; no resolvable label gives no match. -/
theorem c2_classify_reference (av : Aviary) (cs : List Classification) :
    Aviary.classify av cs = specClassify av cs ∧
    (sortDesc cs).Perm cs ∧
    ((sortDesc cs).Pairwise fun a b => b.probability ≤ a.probability) ∧
    (∀ p : ℚ, (sortDesc cs).filter (fun x => decide (x.probability = p)) =
        cs.filter fun x => decide (x.probability = p)) ∧
    ((∀ c ∈ cs, specResolveLabel av c.probability c.className = none) →
      Aviary.classify av cs = none) := by
  refine ⟨classify_eq_spec av cs, sortDesc_perm cs, sortDesc_pairwise cs,
    fun p => sortDesc_filter cs p, fun h => ?_⟩
  rw [classify_eq_spec]
  unfold specClassify
  exact findSome?_eq_none_of_all _ _ fun c hc =>
    h c ((sortDesc_perm cs).mem_iff.mp hc)

/-- Witness for C2 at a concrete input: a label that resolves to no breed
yields no match. -/
theorem c2_classify_reference_witness :
    (∀ c ∈ [Classification.mk "unknown thing" 1],
        specResolveLabel ⟨[("pug", [])]⟩ c.probability c.className = none) ∧
    Aviary.classify ⟨[("pug", [])]⟩ [Classification.mk "unknown thing" 1] = none :=
  ⟨by decide,
   (c2_classify_reference ⟨[("pug", [])]⟩ [Classification.mk "unknown thing" 1]).2.2.2.2
     (by decide)⟩

/-- The concrete aviary of claim C4: breed chihuahua with sub-breed
mexican dog. -/
def chihuahuaAviary : Aviary := ⟨[("chihuahua", ["mexican dog"])]⟩

/-- The concrete classification list of claim C4. -/
def chihuahuaInput : List Classification :=
  [{ className := "Chihuahua, Mexican dog", probability := 0.9 }]

/-- Claim C4 counterexample: the claimed result (sub-breed mexican dog) is
not what the code returns; the first comma fragment chihuahua already
resolves the breed and short-circuits, and its tokens contain no known
sub-breed, while a two-word sub-breed can never equal a single token. -/
theorem c4_counterexample :
    Aviary.classify chihuahuaAviary chihuahuaInput ≠
      some { match_ := 0.9, breed := "chihuahua", subBreed := some "mexican dog" } := by
  intro h
  have h0 : Aviary.classify chihuahuaAviary chihuahuaInput =
      some { match_ := 0.9, breed := "chihuahua", subBreed := none } := rfl
  rw [h0] at h
  exact Option.noConfusion (congrArg Probe.subBreed (Option.some.inj h))

/-- Claim C4 as amended: on the single classification with label
Chihuahua, Mexican dog and probability 0.9, against an index with breed
chihuahua and sub-breed mexican dog, classify returns breed chihuahua with
NO sub-breed and confidence 0.9. -/
theorem c4_amended :
    Aviary.classify chihuahuaAviary chihuahuaInput =
      some { match_ := 0.9, breed := "chihuahua", subBreed := none } := rfl

/-- Claim C10: every Probe returned by classify is well-formed: its breed is
a key of the index, its confidence is the unchanged probability of the input
classification whose label produced the match, and its sub-breed, when
populated, is a token of the matched fragment that is a known sub-breed of
the matched breed. -/
theorem c10_probe_wellformed (av : Aviary) (cs : List Classification) (p : Probe)
    (h : Aviary.classify av cs = some p) :
    (dictGet p.breed av.breeds).isSome = true ∧
    ∃ c ∈ cs, p.match_ = c.probability ∧
      ∃ frag ∈ splitCommaWs (jsToLower c.className),
        av.classifyFragment c.probability frag = some p ∧
        ∀ sb, p.subBreed = some sb →
          sb ∈ splitWsDash frag ∧
          ∃ sbs, dictGet p.breed av.breeds = some sbs ∧ sbs.contains sb = true := by
  rw [classify_eq_spec] at h
  unfold specClassify at h
  obtain ⟨c, hcmem, hc⟩ := List.exists_of_findSome?_eq_some h
  unfold specResolveLabel at hc
  obtain ⟨frag, hfragmem, hfrag⟩ := List.exists_of_findSome?_eq_some hc
  have hfrag2 := hfrag
  unfold specResolveFragment at hfrag2
  cases hfind : (splitWsDash frag).find? fun t => (dictGet t av.breeds).isSome with
  | none => rw [hfind] at hfrag2; cases hfrag2
  | some b =>
    rw [hfind] at hfrag2
    dsimp only at hfrag2
    cases hget : dictGet b av.breeds with
    | none => simp only [hget] at hfrag2; exact Option.noConfusion hfrag2
    | some subBreeds =>
      rw [hget] at hfrag2
      dsimp only at hfrag2
      have hp := Option.some.inj hfrag2
      have hbreed : p.breed = b := by rw [← hp]
      have hmatch : p.match_ = c.probability := by rw [← hp]
      have hsub : p.subBreed = (splitWsDash frag).find? fun t => subBreeds.contains t := by
        rw [← hp]
      refine ⟨?_, c, (sortDesc_perm cs).mem_iff.mp hcmem, hmatch, frag, hfragmem, ?_, ?_⟩
      · rw [hbreed, hget]; rfl
      · rw [classifyFragment_eq_spec]; exact hfrag
      · intro sb hsb
        rw [hsub] at hsb
        exact ⟨List.mem_of_find?_eq_some hsb,
          subBreeds, by rw [hbreed, hget], List.find?_some hsb⟩

/-- Witness for C10 at a concrete input: the label black pug resolves to
breed pug with sub-breed black at confidence one half. -/
theorem c10_probe_wellformed_witness :
    Aviary.classify ⟨[("pug", ["black"])]⟩ [Classification.mk "black pug" 0.5] =
      some { match_ := 0.5, breed := "pug", subBreed := some "black" } ∧
    ((dictGet (Probe.breed ⟨0.5, "pug", some "black"⟩) (Aviary.breeds ⟨[("pug", ["black"])]⟩)).isSome = true ∧
      ∃ c ∈ [Classification.mk "black pug" 0.5],
        Probe.match_ ⟨0.5, "pug", some "black"⟩ = c.probability ∧
        ∃ frag ∈ splitCommaWs (jsToLower c.className),
          Aviary.classifyFragment ⟨[("pug", ["black"])]⟩ c.probability frag =
            some ⟨0.5, "pug", some "black"⟩ ∧
          ∀ sb, Probe.subBreed ⟨0.5, "pug", some "black"⟩ = some sb →
            sb ∈ splitWsDash frag ∧
            ∃ sbs, dictGet (Probe.breed ⟨0.5, "pug", some "black"⟩)
                (Aviary.breeds ⟨[("pug", ["black"])]⟩) = some sbs ∧
              sbs.contains sb = true) :=
  ⟨rfl, c10_probe_wellformed ⟨[("pug", ["black"])]⟩ [Classification.mk "black pug" 0.5]
    ⟨0.5, "pug", some "black"⟩ rfl⟩

/-! ## The Effect type and Effect.map (core.ts lines 1-12)

A JS effect is a procedure receiving a dispatch callback; its observable
behaviour is what it makes the dispatch produce together with its own
external side effects. The embedding abstracts the answer type of running,
so an effect is a function from a dispatch continuation to the answer. -/

/-- Embedding of the Effect type alias of core.ts. -/
def Effect (ω Action : Type) : Type := (Action → ω) → ω

/-- Embedding of Effect.map from core.ts: run the inner effect with the
derived dispatch that reshapes every dispatched action through fn before
handing it to the outer dispatch. -/
def Effect.map {ω Action Result : Type} (fn : Action → Result)
    (effect : Effect ω Action) : Effect ω Result :=
  fun dispatch => effect fun action => dispatch (fn action)

/-- One observable step of a scripted effect: either an external side effect
(identified by a tag) or a dispatch of an action. -/
inductive EffectStep (Action : Type) where
  | external (tag : ℕ)
  | dispatched (action : Action)
deriving DecidableEq

/-- A canonical effect with fully observable behaviour: it performs the
scripted external steps and dispatch calls in order, collecting the trace. -/
def scripted (steps : List (EffectStep A)) : Effect (List (EffectStep B)) A :=
  fun dispatch =>
    steps.flatMap fun s =>
      match s with
      | .external tag => [EffectStep.external tag]
      | .dispatched action => dispatch action

/-- The capturing dispatch stand-in of the spec: it records the action it
receives as a trace entry. -/
def captureDispatch {Action : Type} : Action → List (EffectStep Action) :=
  fun action => [EffectStep.dispatched action]

/-- Reshape one trace step through fn, leaving external steps untouched. -/
def stepMap (fn : A → B) : EffectStep A → EffectStep B
  | .external tag => .external tag
  | .dispatched action => .dispatched (fn action)

/-! ## The Program runtime (core.ts lines 16-96)

The ClientProgram instance state is its current State value and its
subscriber array; one dispatch is a pure step returning the successor
instance state together with the ordered trace of observable events:
each effect execution and each subscriber invocation. -/

/-- The mutable fields of a ClientProgram: the stored state and the
subscribers array in registration order. Subscribers are identified by
their JS function identity, modelled as a natural number. -/
structure ProgState (State Sub : Type) where
  state : State
  subscribers : List Sub
deriving DecidableEq

/-- One observable event of a dispatch: the execution of one effect or the
invocation of one subscriber. -/
inductive RuntimeEvent (E Sub : Type) where
  | effectRun (effect : E)
  | notify (subscriber : Sub)
deriving DecidableEq

/-- The effect executed by an event, if it is an effect execution. -/
def RuntimeEvent.effectOf {E Sub : Type} : RuntimeEvent E Sub → Option E
  | .effectRun e => some e
  | .notify _ => none

/-- The subscriber invoked by an event, if it is a notification. -/
def RuntimeEvent.notifyOf {E Sub : Type} : RuntimeEvent E Sub → Option Sub
  | .effectRun _ => none
  | .notify s => some s

namespace ClientProgram

/-- Embedding of ClientProgram.dispatch (core.ts lines 41-56) together with
executeEffects (lines 77-81): run update on the action and the stored state;
when the returned state is reference-equal (the JS triple-equal test,
abstracted as the sameRef parameter) to the stored one, keep the instance
state and only execute the effects in list order; otherwise store the new
state, execute the effects in list order, then notify every registered
subscriber in registration order. -/
def dispatch {State Action E Sub : Type} (sameRef : State → State → Bool)
    (update : Action → State → State × List E)
    (p : ProgState State Sub) (action : Action) :
    ProgState State Sub × List (RuntimeEvent E Sub) :=
  if sameRef p.state (update action p.state).1 then
    (p, (update action p.state).2.map RuntimeEvent.effectRun)
  else
    (⟨(update action p.state).1, p.subscribers⟩,
      (update action p.state).2.map RuntimeEvent.effectRun ++
        p.subscribers.map RuntimeEvent.notify)

/-- Embedding of ClientProgram.subscribe (core.ts line 66): push the
listener onto the subscribers array. -/
def subscribe (subscribers : List ℕ) (subscriber : ℕ) : List ℕ :=
  subscribers ++ [subscriber]

/-- Embedding of the unsubscribe token returned by subscribe (core.ts lines
68-74): find the first registration with the identity of the listener and
splice it out; do nothing when no registration matches. -/
def unsubscribe (subscribers : List ℕ) (subscriber : ℕ) : List ℕ :=
  subscribers.erase subscriber

end ClientProgram

/-! ## Helper lemmas about event traces -/

theorem filterMap_effectOf_effectRun {E Sub : Type} (l : List E) :
    (l.map fun e => (RuntimeEvent.effectRun e : RuntimeEvent E Sub)).filterMap
      RuntimeEvent.effectOf = l := by
  induction l with
  | nil => rfl
  | cons e es ih => simp [List.filterMap_cons, RuntimeEvent.effectOf, ih]

theorem filterMap_notifyOf_effectRun {E Sub : Type} (l : List E) :
    (l.map fun e => (RuntimeEvent.effectRun e : RuntimeEvent E Sub)).filterMap
      RuntimeEvent.notifyOf = [] := by
  induction l with
  | nil => rfl
  | cons e es ih => simp [List.filterMap_cons, RuntimeEvent.notifyOf, ih]

theorem filterMap_effectOf_notify {E Sub : Type} (l : List Sub) :
    (l.map fun s => (RuntimeEvent.notify s : RuntimeEvent E Sub)).filterMap
      RuntimeEvent.effectOf = [] := by
  induction l with
  | nil => rfl
  | cons s ss ih => simp [List.filterMap_cons, RuntimeEvent.effectOf, ih]

theorem filterMap_notifyOf_notify {E Sub : Type} (l : List Sub) :
    (l.map fun s => (RuntimeEvent.notify s : RuntimeEvent E Sub)).filterMap
      RuntimeEvent.notifyOf = l := by
  induction l with
  | nil => rfl
  | cons s ss ih => simp [List.filterMap_cons, RuntimeEvent.notifyOf, ih]

/-! ## Claim theorems for the runtime -/

/-- Claim C1: for every update function, current state and dispatched
action: when update returns a state reference-equal to the stored one,
dispatch leaves the instance state untouched, executes exactly the returned
effects, once each and in list order, and notifies no subscriber; otherwise
it stores the next state, executes exactly the returned effects, once each
and in list order, and then invokes exactly the currently registered
subscribers, once each and in registration order. -/
theorem c1_dispatch_contract (State Action E Sub : Type)
    (sameRef : State → State → Bool)
    (update : Action → State → State × List E)
    (p : ProgState State Sub) (action : Action) :
    (sameRef p.state (update action p.state).1 = true →
      ClientProgram.dispatch sameRef update p action =
        (p, (update action p.state).2.map RuntimeEvent.effectRun) ∧
      ((ClientProgram.dispatch sameRef update p action).2.filterMap
        RuntimeEvent.effectOf = (update action p.state).2) ∧
      ((ClientProgram.dispatch sameRef update p action).2.filterMap
        RuntimeEvent.notifyOf = [])) ∧
    (sameRef p.state (update action p.state).1 = false →
      (ClientProgram.dispatch sameRef update p action).1 =
        ⟨(update action p.state).1, p.subscribers⟩ ∧
      (ClientProgram.dispatch sameRef update p action).2 =
        (update action p.state).2.map RuntimeEvent.effectRun ++
          p.subscribers.map RuntimeEvent.notify ∧
      ((ClientProgram.dispatch sameRef update p action).2.filterMap
        RuntimeEvent.effectOf = (update action p.state).2) ∧
      ((ClientProgram.dispatch sameRef update p action).2.filterMap
        RuntimeEvent.notifyOf = p.subscribers)) := by
  constructor
  · intro h
    have hd : ClientProgram.dispatch sameRef update p action =
        (p, (update action p.state).2.map RuntimeEvent.effectRun) := by
      unfold ClientProgram.dispatch
      rw [if_pos h]
    refine ⟨hd, ?_, ?_⟩
    · rw [hd]; exact filterMap_effectOf_effectRun _
    · rw [hd]; exact filterMap_notifyOf_effectRun _
  · intro h
    have hd : ClientProgram.dispatch sameRef update p action =
        (⟨(update action p.state).1, p.subscribers⟩,
          (update action p.state).2.map RuntimeEvent.effectRun ++
            p.subscribers.map RuntimeEvent.notify) := by
      unfold ClientProgram.dispatch
      rw [if_neg (by rw [h]; exact Bool.false_ne_true)]
    refine ⟨by rw [hd], by rw [hd], ?_, ?_⟩
    · rw [hd]
      show (List.filterMap _ (_ ++ _)) = _
      rw [List.filterMap_append, filterMap_effectOf_effectRun,
        filterMap_effectOf_notify, List.append_nil]
    · rw [hd]
      show (List.filterMap _ (_ ++ _)) = _
      rw [List.filterMap_append, filterMap_notifyOf_effectRun,
        filterMap_notifyOf_notify, List.nil_append]

/-- Witness for C1 at concrete inputs, one for each branch: a no-op update
dispatch produces no notification, a changing update notifies the two
registered subscribers in order. -/
theorem c1_dispatch_contract_witness :
    ((ClientProgram.dispatch (fun a b => a == b)
        (fun (_ : Bool) (s : ℕ) => (s, [7])) ⟨0, [3, 4]⟩ true).2.filterMap
      RuntimeEvent.notifyOf = ([] : List ℕ)) ∧
    ((ClientProgram.dispatch (fun a b => a == b)
        (fun (_ : Bool) (s : ℕ) => (s + 1, [9])) ⟨0, [3, 4]⟩ true).2.filterMap
      RuntimeEvent.notifyOf = [3, 4]) :=
  ⟨((c1_dispatch_contract ℕ Bool ℕ ℕ (fun a b => a == b)
      (fun _ s => (s, [7])) ⟨0, [3, 4]⟩ true).1 (by decide)).2.2,
   ((c1_dispatch_contract ℕ Bool ℕ ℕ (fun a b => a == b)
      (fun _ s => (s + 1, [9])) ⟨0, [3, 4]⟩ true).2 (by decide)).2.2.2⟩

/-- Claim C8: mapping an effect runs the inner effect with the derived
dispatch (first conjunct, for every effect, transform and outer dispatch),
and on any fully scripted effect the external side effects are unchanged
while every dispatched action reaches the outer dispatch exactly once,
reshaped by the transform (second conjunct, against the capturing dispatch
stand-in). -/
theorem c8_effect_map :
    (∀ (ω A B : Type) (fn : A → B) (effect : Effect ω A) (dispatch : B → ω),
      Effect.map fn effect dispatch = effect fun action => dispatch (fn action)) ∧
    (∀ (A B : Type) (fn : A → B) (steps : List (EffectStep A)),
      Effect.map fn (scripted steps) (captureDispatch : B → List (EffectStep B)) =
        steps.map (stepMap fn)) := by
  constructor
  · intro ω A B fn effect dispatch
    rfl
  · intro A B fn steps
    induction steps with
    | nil => rfl
    | cons s rest ih =>
      rw [List.map_cons, ← ih]
      cases s with
      | external tag => rfl
      | dispatched action => rfl

/-! ## The live notification loop (core.ts lines 53-55 and 65-75)

Claim C6 concerns subscribe and unsubscribe calls made by a subscriber
while the notification round of a dispatch is iterating the live
subscribers array with for..of. The JS array iterator keeps an index,
re-reads the live array length at every step and yields the element at the
current index; a subscriber callback may push onto or splice out of that
same array before the next step. -/

/-- A mutation of the live subscriber array performed from inside a
subscriber callback: a push (program.subscribe) or the splice of the first
matching registration (an unsubscribe token). -/
inductive SubMutation where
  | push (subscriber : ℕ)
  | removeFirst (subscriber : ℕ)

/-- Apply one mutation to the live subscribers array. -/
def applySubMutation (subscribers : List ℕ) : SubMutation → List ℕ
  | .push s => subscribers ++ [s]
  | .removeFirst s => subscribers.erase s

/-- Model of the for..of notification loop over the live subscribers array:
at each step, if the iterator index is still below the current length of the
live array, visit the subscriber stored there, apply the mutations its
callback performs, and advance the index. Fuel bounds the number of steps
and is ample for the concrete runs below. Returns the final array and the
list of visited (notified) subscribers in order. -/
def notifyRound (behave : ℕ → List SubMutation) :
    ℕ → ℕ → List ℕ → List ℕ → List ℕ × List ℕ
  | 0, _, subscribers, visited => (subscribers, visited)
  | fuel + 1, i, subscribers, visited =>
    if h : i < subscribers.length then
      notifyRound behave fuel (i + 1)
        ((behave (subscribers.get ⟨i, h⟩)).foldl applySubMutation subscribers)
        (visited ++ [subscribers.get ⟨i, h⟩])
    else (subscribers, visited)

/-- Behaviour where subscriber 0 registers a new listener 1 during the
round, and every other subscriber does nothing. -/
def pushDuringRound : ℕ → List SubMutation
  | 0 => [SubMutation.push 1]
  | _ => []

/-- Behaviour where subscriber 0 unsubscribes itself during the round, and
every other subscriber does nothing. -/
def removeDuringRound : ℕ → List SubMutation
  | 0 => [SubMutation.removeFirst 0]
  | _ => []

/-- Claim C6 evaluated at its failing inputs. First run: the round starts
with the single subscriber 0, whose callback subscribes listener 1; the
live for..of iteration visits 1 in the same round, so the notified set is
not the set registered when notification began. Second run: the round
starts with subscribers 0 and 1, and 0 unsubscribes itself; the splice
shifts the array under the iterator and subscriber 1, registered at the
start of the round, is skipped. -/
theorem c6_live_iteration_divergence :
    (notifyRound pushDuringRound 10 0 [0] []).2 = [0, 1] ∧
    (notifyRound removeDuringRound 10 0 [0, 1] []).2 = [0] ∧
    [0, 1] ≠ [0] ∧ [0] ≠ [0, 1] := by decide

/-- Claim C7: the token returned by subscribe removes exactly the first
registration matching the listener identity, does nothing when the listener
is not registered, and after subscribing the same listener twice and
invoking one token exactly one registration remains, which is still
notified exactly once by the next state-changing dispatch. -/
theorem c7_unsubscribe_token (subscribers : List ℕ) (l : ℕ) :
    (∀ pre post, l ∉ pre → subscribers = pre ++ l :: post →
      ClientProgram.unsubscribe subscribers l = pre ++ post) ∧
    (l ∉ subscribers → ClientProgram.unsubscribe subscribers l = subscribers) ∧
    (l ∉ subscribers →
      ClientProgram.unsubscribe
        (ClientProgram.subscribe (ClientProgram.subscribe subscribers l) l) l =
        subscribers ++ [l] ∧
      (ClientProgram.unsubscribe
        (ClientProgram.subscribe (ClientProgram.subscribe subscribers l) l) l).count l
        = 1) ∧
    (∀ (State Action E : Type) (sameRef : State → State → Bool)
        (update : Action → State → State × List E) (s : State) (action : Action),
      l ∉ subscribers →
      sameRef s (update action s).1 = false →
      (((ClientProgram.dispatch sameRef update
          ⟨s, ClientProgram.unsubscribe
            (ClientProgram.subscribe (ClientProgram.subscribe subscribers l) l) l⟩
          action).2.filterMap RuntimeEvent.notifyOf).count l = 1)) := by
  have herase : ∀ hl : l ∉ subscribers,
      ClientProgram.unsubscribe
        (ClientProgram.subscribe (ClientProgram.subscribe subscribers l) l) l =
        subscribers ++ [l] := by
    intro hl
    show (((subscribers ++ [l]) ++ [l]).erase l) = _
    rw [List.append_assoc, List.erase_append_right _ hl]
    show subscribers ++ (l :: [l]).erase l = subscribers ++ [l]
    rw [List.erase_cons_head]
  have hcount : ∀ hl : l ∉ subscribers, (subscribers ++ [l]).count l = 1 := by
    intro hl
    rw [List.count_append]
    rw [List.count_eq_zero.mpr hl]
    simp [List.count_cons]
  refine ⟨?_, ?_, ?_, ?_⟩
  · intro pre post hpre heq
    show subscribers.erase l = _
    rw [heq, List.erase_append_right _ hpre, List.erase_cons_head]
  · intro hl
    exact List.erase_of_not_mem hl
  · intro hl
    exact ⟨herase hl, by rw [herase hl]; exact hcount hl⟩
  · intro State Action E sameRef update s action hl hfalse
    have hd : (ClientProgram.dispatch sameRef update
        ⟨s, ClientProgram.unsubscribe
          (ClientProgram.subscribe (ClientProgram.subscribe subscribers l) l) l⟩
        action).2 =
        (update action s).2.map RuntimeEvent.effectRun ++
          (ClientProgram.unsubscribe
            (ClientProgram.subscribe (ClientProgram.subscribe subscribers l) l) l).map
            RuntimeEvent.notify := by
      unfold ClientProgram.dispatch
      rw [if_neg (by rw [hfalse]; exact Bool.false_ne_true)]
    rw [hd, List.filterMap_append, filterMap_notifyOf_effectRun,
      filterMap_notifyOf_notify, List.nil_append, herase hl]
    exact hcount hl

/-- Witness for C7 at a concrete input: listener 3, initially registered
listeners [5], a dispatch that increments a counter state. -/
theorem c7_unsubscribe_token_witness :
    (ClientProgram.unsubscribe
      (ClientProgram.subscribe (ClientProgram.subscribe [5] 3) 3) 3 = [5, 3] ∧
     (ClientProgram.unsubscribe
       (ClientProgram.subscribe (ClientProgram.subscribe [5] 3) 3) 3).count 3 = 1) ∧
    (((ClientProgram.dispatch (fun a b => a == b)
        (fun (_ : Bool) (s : ℕ) => (s + 1, ([] : List ℕ)))
        ⟨0, ClientProgram.unsubscribe
          (ClientProgram.subscribe (ClientProgram.subscribe [5] 3) 3) 3⟩
        true).2.filterMap RuntimeEvent.notifyOf).count 3 = 1) :=
  ⟨(c7_unsubscribe_token [5] 3).2.2.1 (by decide),
   (c7_unsubscribe_token [5] 3).2.2.2 ℕ Bool ℕ (fun a b => a == b)
     (fun _ s => (s + 1, [])) 0 true (by decide) (by decide)⟩

/-! ## JSON values and the frctl decoder combinators (core.ts lines 120-139)

The decoders work on parsed JSON values; decodeJSON first parses the raw
response text with the host JSON parser, which is outside this model. A
frctl decode error is structured: a terminal failure carrying a reason and
the offending value, or a failure nested under an object field name or an
array index. -/

/-- A parsed JSON value. Numbers are modelled as rationals. -/
inductive Json where
  | null
  | bool (b : Bool)
  | num (q : ℚ)
  | str (s : String)
  | arr (items : List Json)
  | obj (fields : List (String × Json))

/-- Whether the value is a JSON object (a mapping). -/
def Json.isObj : Json → Bool
  | .obj _ => true
  | _ => false

/-- Model of the frctl Json.Decode.Error tree: a reason with the offending
value, possibly nested under field names and array indices (the path). -/
inductive JsError where
  | failure (message : String) (source : Json)
  | field (name : String) (error : JsError)
  | index (position : ℕ) (error : JsError)

/-- A decoder takes a JSON value to an error or a value, as frctl
Decoder.decode does. -/
def Decoder (A : Type) : Type := Json → Except JsError A

/-- Model of frctl Decoder.map. -/
def Decoder.map (f : A → B) (d : Decoder A) : Decoder B :=
  fun j => (d j).map f

/-- Model of frctl Decoder.chain: the continuation decoder runs on the same
JSON value. -/
def Decoder.chain (d : Decoder A) (f : A → Decoder B) : Decoder B :=
  fun j =>
    match d j with
    | .error e => .error e
    | .ok a => f a j

/-- Model of frctl Decode.fail: always fail with the message at the current
value. -/
def decodeFail (message : String) : Decoder A :=
  fun j => .error (.failure message j)

/-- Model of frctl Decode.string. -/
def decodeString : Decoder String :=
  fun j =>
    match j with
    | .str s => .ok s
    | _ => .error (.failure "Expecting a STRING" j)

/-- The reason reported when a required object field is absent or the value
is not an object. -/
def missingFieldMsg (name : String) : String :=
  "Expecting an OBJECT with a field named " ++ name

/-- First binding of the field name in a JSON object, if any. -/
def jsonLookup (name : String) : List (String × Json) → Option Json
  | [] => none
  | f :: fs => if f.1 = name then some f.2 else jsonLookup name fs

/-- Model of frctl Decode.field(name).of(decoder): decode the named field,
nesting errors of the inner decoder under the field name. -/
def decodeField (name : String) (d : Decoder A) : Decoder A :=
  fun j =>
    match j with
    | .obj fields =>
      match jsonLookup name fields with
      | some v => (d v).mapError (JsError.field name)
      | none => .error (.failure (missingFieldMsg name) j)
    | _ => .error (.failure (missingFieldMsg name) j)

/-- Element-wise decoding of an array, nesting errors under the element
index; all elements must decode for the list to decode. -/
def decodeListAux (d : Decoder A) : ℕ → List Json → Except JsError (List A)
  | _, [] => .ok []
  | i, j :: js =>
    match d j with
    | .error e => .error (.index i e)
    | .ok a =>
      match decodeListAux d (i + 1) js with
      | .error e => .error e
      | .ok rest => .ok (a :: rest)

/-- Model of frctl Decode.list. -/
def decodeList (d : Decoder A) : Decoder (List A) :=
  fun j =>
    match j with
    | .arr items => decodeListAux d 0 items
    | _ => .error (.failure "Expecting a LIST" j)

/-- Field-wise decoding of an object into key-value pairs, nesting errors
under the field name; all fields must decode. -/
def decodeKeyValueAux (d : Decoder A) :
    List (String × Json) → Except JsError (List (String × A))
  | [] => .ok []
  | f :: fs =>
    match d f.2 with
    | .error e => .error (.field f.1 e)
    | .ok a =>
      match decodeKeyValueAux d fs with
      | .error e => .error e
      | .ok rest => .ok ((f.1, a) :: rest)

/-- Model of frctl Decode.keyValue. -/
def decodeKeyValue (d : Decoder A) : Decoder (List (String × A)) :=
  fun j =>
    match j with
    | .obj fields => decodeKeyValueAux d fields
    | _ => .error (.failure "Expecting an OBJECT" j)

/-- Embedding of dogApiDecoder (core.ts lines 120-135): decode the status
field as a string, then switch on it: error status decodes the message
string and fails with it; success status decodes the message field with the
inner decoder; any other status fails with an unknown-status reason. -/
def dogApiDecoder (d : Decoder A) : Decoder A :=
  (decodeField "status" decodeString).chain fun status =>
    if status = "error" then
      (decodeField "message" decodeString).chain decodeFail
    else if status = "success" then
      decodeField "message" d
    else
      decodeFail ("Unknown status \x22" ++ status ++ "\x22")

/-- Embedding of aviaryDecoder (core.ts lines 137-139): decode the payload
as an object of string lists, turn each list into a Set, and build the
Aviary from the Dict of the pairs. No case transformation is applied. -/
def aviaryDecoder : Decoder Aviary :=
  (decodeKeyValue ((decodeList decodeString).map setFromList)).map
    fun pairs => Aviary.mk (dictFromList pairs)

/-- The envelope behaviour as the spec (section 4.3) describes it, written
by direct case analysis on the JSON value rather than with the decoder
combinators: error status with a string message gives a failure carrying
exactly that message; success status hands the message field to the inner
decoder, nesting its errors under the field name; everything else is a
structured decode error. -/
def envelopeSpecDecoder (d : Decoder A) : Decoder A :=
  fun j =>
    match j with
    | .obj fields =>
      match jsonLookup "status" fields with
      | some (.str status) =>
        if status = "error" then
          match jsonLookup "message" fields with
          | some (.str message) => .error (.failure message j)
          | some v => .error (.field "message" (.failure "Expecting a STRING" v))
          | none => .error (.failure (missingFieldMsg "message") j)
        else if status = "success" then
          match jsonLookup "message" fields with
          | some v => (d v).mapError (JsError.field "message")
          | none => .error (.failure (missingFieldMsg "message") j)
        else .error (.failure ("Unknown status \x22" ++ status ++ "\x22") j)
      | some v => .error (.field "status" (.failure "Expecting a STRING" v))
      | none => .error (.failure (missingFieldMsg "status") j)
    | _ => .error (.failure (missingFieldMsg "status") j)

/-! ## Image search (core.ts lines 159-175) -/

/-- Embedding of the request path computation of Aviary.search (the cata on
the optional sub-breed, lines 160-164). -/
def searchMethod (breed : Probe) : String :=
  match breed.subBreed with
  | none => "breed/" ++ breed.breed ++ "/images"
  | some subBreed => "breed/" ++ breed.breed ++ "/" ++ subBreed ++ "/images"

/-- Model of frctl Error.stringify: render the structured decode error
(path and reason) as a human-readable string. -/
def errorStringify : JsError → String
  | .failure message _ => "Problem with the given value: " ++ message
  | .field name e => "Problem with the field " ++ name ++ ". " ++ errorStringify e
  | .index position e =>
    "Problem with the element at index " ++ toString position ++ ". " ++ errorStringify e

/-- Embedding of the response handling of Aviary.search (lines 166-174):
decode the envelope around a list of strings from the fetched JSON; a decode
failure becomes the stringified error, the value the Promise rejects with,
and success resolves with the full picture list. -/
def searchDecode (j : Json) : Except String (List String) :=
  match dogApiDecoder (decodeList decodeString) j with
  | .error e => .error (errorStringify e)
  | .ok pictures => .ok pictures

/-! ## Decoder helper lemmas -/

/-- A list of string literals decodes element-wise to exactly those
strings. -/
theorem decodeListAux_map_str (vs : List String) : ∀ i : ℕ,
    decodeListAux decodeString i (vs.map Json.str) = .ok vs := by
  induction vs with
  | nil => intro i; rfl
  | cons v vs ih =>
    intro i
    rw [List.map_cons]
    unfold decodeListAux
    dsimp only [decodeString]
    rw [ih (i + 1)]

/-- Conversely, a JSON list that decodes as a string list consists exactly
of the string literals of the result, in order: no element is dropped. -/
theorem decodeListAux_string_shape (js : List Json) : ∀ (i : ℕ) (l : List String),
    decodeListAux decodeString i js = .ok l → js = l.map Json.str := by
  induction js with
  | nil =>
    intro i l h
    cases Except.ok.inj h
    rfl
  | cons j rest ih =>
    intro i l h
    unfold decodeListAux at h
    cases j
    case str s =>
      dsimp only [decodeString] at h
      cases hrest : decodeListAux decodeString (i + 1) rest with
      | error e => rw [hrest] at h; exact Except.noConfusion h
      | ok tail =>
        rw [hrest] at h
        cases Except.ok.inj h
        rw [List.map_cons]
        exact congrArg (List.cons (Json.str s)) (ih (i + 1) tail hrest)
    all_goals
      dsimp only [decodeString] at h
      exact Except.noConfusion h

/-- A catalog object whose values are arrays of string literals decodes
field-wise with keys and sub-breed names taken over unchanged. -/
theorem decodeKeyValueAux_catalog (pairs : List (String × List String)) :
    decodeKeyValueAux ((decodeList decodeString).map setFromList)
      (pairs.map fun kv => (kv.1, Json.arr (kv.2.map Json.str))) =
      .ok (pairs.map fun kv => (kv.1, setFromList kv.2)) := by
  induction pairs with
  | nil => rfl
  | cons kv rest ih =>
    rw [List.map_cons, List.map_cons]
    unfold decodeKeyValueAux
    dsimp only [Decoder.map, decodeList]
    rw [decodeListAux_map_str kv.2 0, ih]
    rfl

/-- On a success envelope the source decoder hands the message field to the
inner decoder, nesting errors under the field name. -/
theorem dogApi_success_payload {A : Type} (d : Decoder A) (payload : Json) :
    dogApiDecoder d (Json.obj [("status", Json.str "success"), ("message", payload)]) =
      (d payload).mapError (JsError.field "message") := rfl

/-- The source envelope decoder equals the envelope behaviour written from
the words of the spec, for every inner decoder and every JSON value. -/
theorem dogApi_eq_envelopeSpec {A : Type} (d : Decoder A) (j : Json) :
    dogApiDecoder d j = envelopeSpecDecoder d j := by
  unfold dogApiDecoder envelopeSpecDecoder Decoder.chain decodeField decodeString decodeFail
  cases j
  case obj fields =>
    dsimp only
    cases hstat : jsonLookup "status" fields with
    | none => rfl
    | some v =>
      cases v
      case str status =>
        dsimp only [Except.mapError]
        by_cases he : status = "error"
        · simp only [if_pos he]
          cases hmsg : jsonLookup "message" fields with
          | none => rfl
          | some w => cases w <;> rfl
        · by_cases hs : status = "success"
          · simp only [if_neg he, if_pos hs]
          · simp only [if_neg he, if_neg hs]
      all_goals rfl
  all_goals rfl

/-! ## Claim theorems for the decoders and the image search -/

/-- Claim C5: for every inner-payload decoder and every (parsed) response
value, the envelope decoder returns a failure carrying the envelope message
string when status is error with a string message, hands the message field
to the inner decoder when status is success, and fails with a structured
decode error for any other status value or schema mismatch at any level
(first conjunct: equality with the case analysis the spec describes); in
particular a success envelope whose breed-catalog payload is not a mapping
fails and never yields a value (second conjunct). -/
theorem c5_envelope_contract :
    (∀ (A : Type) (d : Decoder A) (j : Json),
      dogApiDecoder d j = envelopeSpecDecoder d j) ∧
    (∀ payload : Json, payload.isObj = false →
      ∃ e, dogApiDecoder aviaryDecoder
        (Json.obj [("status", Json.str "success"), ("message", payload)]) =
        Except.error e) := by
  constructor
  · intro A d j
    exact dogApi_eq_envelopeSpec d j
  · intro payload hp
    cases payload with
    | obj fields => simp [Json.isObj] at hp
    | null => exact ⟨_, rfl⟩
    | bool b => exact ⟨_, rfl⟩
    | num q => exact ⟨_, rfl⟩
    | str s => exact ⟨_, rfl⟩
    | arr items => exact ⟨_, rfl⟩

/-- Witness for C5 at a concrete input: a success envelope carrying the
number one as catalog payload fails to decode. -/
theorem c5_envelope_contract_witness :
    ∃ e, dogApiDecoder aviaryDecoder
      (Json.obj [("status", Json.str "success"), ("message", Json.num 1)]) =
      Except.error e :=
  c5_envelope_contract.2 (Json.num 1) rfl

/-- The concrete catalog with cased entries used against claim C3. -/
def casedCatalogJson : Json :=
  Json.obj [("Chihuahua", Json.arr [Json.str "Mexican Dog"])]

/-- Claim C3 counterexample: decoding a catalog whose breed key is spelled
Chihuahua yields an index that stores the key exactly as given, so the keys
are not lower-cased, and a classification whose label names exactly that
breed finds no match, because only the label is lower-cased before the
lookup: matching is not case-insensitive in the catalog casing. -/
theorem c3_counterexample :
    dogApiDecoder aviaryDecoder
      (Json.obj [("status", Json.str "success"), ("message", casedCatalogJson)]) =
      Except.ok (Aviary.mk [("Chihuahua", ["Mexican Dog"])]) ∧
    ¬ (∀ kv ∈ [("Chihuahua", ["Mexican Dog"])], jsToLower kv.1 = kv.1) ∧
    Aviary.classify (Aviary.mk [("Chihuahua", ["Mexican Dog"])])
      [Classification.mk "Chihuahua" 0.9] = none := by
  refine ⟨rfl, ?_, rfl⟩
  intro hall
  have h1 := hall ("Chihuahua", ["Mexican Dog"]) (List.mem_singleton.mpr rfl)
  exact absurd h1 (by decide)

/-- Claim C3 as amended: the decoded BreedIndex stores catalog keys and
sub-breed names exactly as they appear in the catalog, with no case
folding (first conjunct, for every catalog of string lists); classification
is case-insensitive only in the label, which is lower-cased before matching
against the index as stored (second conjunct: an upper-case label matches a
lower-case catalog). -/
theorem c3_amended (pairs : List (String × List String)) :
    dogApiDecoder aviaryDecoder
      (Json.obj [("status", Json.str "success"),
        ("message", Json.obj (pairs.map fun kv => (kv.1, Json.arr (kv.2.map Json.str))))]) =
      Except.ok (Aviary.mk (dictFromList (pairs.map fun kv => (kv.1, setFromList kv.2)))) ∧
    Aviary.classify (Aviary.mk [("chihuahua", [])])
      [Classification.mk "CHIHUAHUA" 0.9] = some (Probe.mk 0.9 "chihuahua" none) := by
  constructor
  · rw [dogApi_success_payload]
    have h1 : aviaryDecoder
        (Json.obj (pairs.map fun kv => (kv.1, Json.arr (kv.2.map Json.str)))) =
        Except.ok (Aviary.mk (dictFromList (pairs.map fun kv => (kv.1, setFromList kv.2)))) := by
      show Except.map _
        (decodeKeyValueAux ((decodeList decodeString).map setFromList)
          (pairs.map fun kv => (kv.1, Json.arr (kv.2.map Json.str)))) = _
      rw [decodeKeyValueAux_catalog]
      rfl
    rw [h1]
    rfl
  · rfl

/-- Claim C9: search requests the path breed/name/images without a
sub-breed and breed/name/subName/images with one (first two conjuncts and
the two concrete pug conjuncts), and the response handling surfaces every
decode failure as the stringified structured error, never a partial list:
a successful result is exactly the full string list of the success
envelope payload (last conjunct). -/
theorem c9_search_contract (breed : Probe) (j : Json) :
    (breed.subBreed = none →
      searchMethod breed = "breed/" ++ breed.breed ++ "/images") ∧
    (∀ sub, breed.subBreed = some sub →
      searchMethod breed = "breed/" ++ breed.breed ++ "/" ++ sub ++ "/images") ∧
    searchMethod (Probe.mk 1 "pug" none) = "breed/pug/images" ∧
    searchMethod (Probe.mk 1 "pug" (some "black")) = "breed/pug/black/images" ∧
    (∀ e, dogApiDecoder (decodeList decodeString) j = Except.error e →
      searchDecode j = Except.error (errorStringify e)) ∧
    (∀ pictures, searchDecode j = Except.ok pictures →
      ∃ fields, j = Json.obj fields ∧
        jsonLookup "status" fields = some (Json.str "success") ∧
        jsonLookup "message" fields = some (Json.arr (pictures.map Json.str))) := by
  refine ⟨?_, ?_, by decide, by decide, ?_, ?_⟩
  · intro h
    unfold searchMethod
    rw [h]
  · intro sub h
    unfold searchMethod
    rw [h]
  · intro e he
    unfold searchDecode
    rw [he]
  · intro pictures h
    unfold searchDecode at h
    cases hdec : dogApiDecoder (decodeList decodeString) j with
    | error e => rw [hdec] at h; exact Except.noConfusion h
    | ok l =>
      rw [hdec] at h
      cases Except.ok.inj h
      rw [dogApi_eq_envelopeSpec] at hdec
      unfold envelopeSpecDecoder at hdec
      cases j
      case obj fields =>
        dsimp only at hdec
        cases hstat : jsonLookup "status" fields with
        | none => rw [hstat] at hdec; exact Except.noConfusion hdec
        | some v =>
          rw [hstat] at hdec
          cases v
          case str status =>
            dsimp only at hdec
            by_cases he : status = "error"
            · rw [if_pos he] at hdec
              cases hmsg : jsonLookup "message" fields with
              | none => rw [hmsg] at hdec; exact Except.noConfusion hdec
              | some w =>
                rw [hmsg] at hdec
                cases w <;> exact Except.noConfusion hdec
            · by_cases hs : status = "success"
              · rw [if_neg he, if_pos hs] at hdec
                cases hmsg : jsonLookup "message" fields with
                | none => rw [hmsg] at hdec; exact Except.noConfusion hdec
                | some w =>
                  rw [hmsg] at hdec
                  dsimp only at hdec
                  cases hw : decodeList decodeString w with
                  | error e2 =>
                    rw [hw] at hdec
                    exact Except.noConfusion hdec
                  | ok l2 =>
                    rw [hw] at hdec
                    dsimp only [Except.mapError] at hdec
                    cases Except.ok.inj hdec
                    cases w with
                    | arr items =>
                      unfold decodeList at hw
                      dsimp only at hw
                      have hshape := decodeListAux_string_shape items 0 _ hw
                      refine ⟨fields, rfl, ?_, ?_⟩
                      · rw [hstat, hs]
                      · rw [hmsg, hshape]
                    | null =>
                      unfold decodeList at hw
                      dsimp only at hw
                      exact Except.noConfusion hw
                    | bool b =>
                      unfold decodeList at hw
                      dsimp only at hw
                      exact Except.noConfusion hw
                    | num q =>
                      unfold decodeList at hw
                      dsimp only at hw
                      exact Except.noConfusion hw
                    | str s =>
                      unfold decodeList at hw
                      dsimp only at hw
                      exact Except.noConfusion hw
                    | obj fields2 =>
                      unfold decodeList at hw
                      dsimp only at hw
                      exact Except.noConfusion hw
              · rw [if_neg he, if_neg hs] at hdec
                exact Except.noConfusion hdec
          all_goals
            dsimp only at hdec
            exact Except.noConfusion hdec
      all_goals
        exact Except.noConfusion hdec

/-- Witness for C9 at concrete inputs: a success envelope around two
picture URLs decodes to exactly that list, and the decode of an error
envelope surfaces the stringified error. -/
theorem c9_search_contract_witness :
    (∃ fields,
      Json.obj [("status", Json.str "success"),
        ("message", Json.arr [Json.str "u1", Json.str "u2"])] = Json.obj fields ∧
      jsonLookup "status" fields = some (Json.str "success") ∧
      jsonLookup "message" fields = some (Json.arr (["u1", "u2"].map Json.str))) ∧
    searchMethod (Probe.mk 1 "pug" none) = "breed/pug/images" :=
  ⟨((c9_search_contract (Probe.mk 1 "pug" none)
      (Json.obj [("status", Json.str "success"),
        ("message", Json.arr [Json.str "u1", Json.str "u2"])])).2.2.2.2.2
    ["u1", "u2"] rfl),
   (c9_search_contract (Probe.mk 1 "pug" none) Json.null).2.2.1⟩

end DogApp
